import Mathlib

/-!
Verification of the ModpackUtils web synchronizer (src/web.ts, src/index.ts).

The TypeScript source is shallowly embedded as pure Lean functions:

* Filesystem paths are lists of components (`path.join` is list append,
  `basename` is the last component, `extname` works on the final component,
  matching Node's behaviour for the names that occur here).
* The local filesystem is an association list from paths to file contents;
  `existsSync`, `readFileSync` and `readdirSync` are derived from it.
* Every HTTP request issued through the axios client is recorded in an
  ordered trace (`List Request`); the `await` sequencing of the source
  determines the order of the trace, and the fan-out of `Promise.all` is
  modelled separately by `promiseAll` over abstract branches with settle
  times.
* JSON/YAML parsing and the external `strip` helper from releases.ts are
  opaque collaborators, so they are taken as function parameters.
-/

namespace ModpackUtils

/-- A filesystem path, as its list of components.  `path.join` from the
source becomes list append and `join("", x) = x` becomes `[] ++ x = x`. -/
abbrev FilePath := List String

/-- The local filesystem: an association list from file paths to file
contents.  Directories are implicit: a path is a directory when it is a
strict prefix of some file's path. -/
structure FS where
  files : List (FilePath × String)
deriving DecidableEq

/-- Association-list lookup with decidable equality on the keys. -/
def lookupFile : List (FilePath × String) → FilePath → Option String
  | [], _ => none
  | (q, c) :: rest, p => if q = p then some c else lookupFile rest p

/-- Embeds `fs.readFileSync(p).toString()`; callers in the source only read
paths they have already observed to exist, so the missing case defaults. -/
def readFileD (fs : FS) (p : FilePath) : String :=
  (lookupFile fs.files p).getD ""

/-- Embeds `fs.existsSync`: the path is a file or a (nonempty) directory. -/
def existsSync (fs : FS) (p : FilePath) : Bool :=
  (lookupFile fs.files p).isSome ||
    fs.files.any (fun qc => p.isPrefixOf qc.1 && p.length < qc.1.length)

/-- Embeds `fs.readdirSync(p)`: the names of the immediate children of `p`,
in the filesystem's listing order. -/
def readdirSync (fs : FS) (p : FilePath) : List String :=
  fs.files.filterMap (fun qc =>
    if qc.1.length = p.length + 1 && p.isPrefixOf qc.1 then qc.1.getLast? else none)

/-- Embeds `path.basename`: the final component of a path. -/
def basename (p : FilePath) : String :=
  (p.getLast?).getD ""

/-- The suffix of a character list starting at its last dot, if any. -/
def lastDotSuffix : List Char → Option (List Char)
  | [] => none
  | c :: cs =>
    match lastDotSuffix cs with
    | some suf => some suf
    | none => if c = '.' then some (c :: cs) else none

/-- Embeds `path.extname` on a single name: the suffix from the final dot,
empty when there is no dot or the only dot leads the name. -/
def extname (name : String) : String :=
  match name.data with
  | [] => ""
  | _ :: cs =>
    match lastDotSuffix cs with
    | some suf => String.mk suf
    | none => ""

/-- A structured JSON-like value, the wire shape of request bodies. -/
inductive JVal where
  | null
  | bool (b : Bool)
  | num (n : Int)
  | str (s : String)
  | arr (elems : List JVal)
  | obj (fields : List (String × JVal))

/-- The body of an HTTP request: a JSON value, or a multipart form whose
parts are (field name, attached file) pairs. -/
inductive ReqBody where
  | json (v : JVal)
  | multipart (parts : List (String × FilePath))

/-- One HTTP request issued through the axios client. -/
structure Request where
  method : String
  path : String
  body : ReqBody

/-- Errors escaping to the top level: an ordinary `new Error(msg)` or an
axios transport error carrying the failing URL and the response body. -/
inductive WebError where
  | appError (msg : String)
  | axiosError (url : String) (respBody : String)
deriving DecidableEq

/-- The `installedFile` descriptor of `MinecraftInstance` (web.ts). -/
structure InstalledFile where
  categorySectionPackageType : Int
  id : Int
  fileName : String
deriving DecidableEq

/-- One entry of `installedAddons` in `MinecraftInstance` (web.ts). -/
structure Addon where
  addonID : Int
  installedFile : InstalledFile
deriving DecidableEq

/-- The `baseModLoader` field of `MinecraftInstance` (web.ts). -/
structure BaseModLoader where
  forgeVersion : String
  name : String
  type : Int
  downloadUrl : String
  filename : String
  installMethod : Int
  latest : Bool
  recommended : Bool
  minecraftVersion : String
deriving DecidableEq

/-- The `MinecraftInstance` interface of web.ts: the installed-mod manifest
parsed from minecraftinstance.json. -/
structure MinecraftInstance where
  name : String
  baseModLoader : BaseModLoader
  installedAddons : List Addon
deriving DecidableEq

/-- The release event payload from the release trigger: its `tag_name` plus
opaque descriptive fields (the exact shape is defined externally). -/
structure RawRelease where
  tag_name : String
  fields : List (String × JVal)

/-- The fixed `webDir` constant of web.ts. -/
def webDir : FilePath := ["web"]

/-- JavaScript object-literal key assignment: setting an existing key keeps
its position and replaces its value, a fresh key is appended. -/
def objSet (o : List (String × JVal)) (k : String) (v : JVal) : List (String × JVal) :=
  if o.any (fun kv => kv.1 = k) then o.map (fun kv => if kv.1 = k then (k, v) else kv)
  else o ++ [(k, v)]

/-- JavaScript spread into an object literal after existing keys: each
spread entry is assigned in order, overriding colliding keys. -/
def objSpread (base extra : List (String × JVal)) : List (String × JVal) :=
  extra.foldl (fun o kv => objSet o kv.1 kv.2) base

/-- Association-list lookup on object fields. -/
def lookupJ : List (String × JVal) → String → Option JVal
  | [], _ => none
  | (k, v) :: rest, q => if k = q then some v else lookupJ rest q

/-- The JSON serialization of one installed addon, as sent on the wire. -/
def addonToJVal (a : Addon) : JVal :=
  .obj [("addonID", .num a.addonID),
        ("installedFile", .obj
          [("categorySectionPackageType", .num a.installedFile.categorySectionPackageType),
           ("id", .num a.installedFile.id),
           ("fileName", .str a.installedFile.fileName)])]

/-- The filter step of `createRelease` (web.ts line 97): keep exactly the
manifest addons whose `installedFile.fileName` exists under `dir/mods/`. -/
def filterAddons (fs : FS) (dir : FilePath) (addons : List Addon) : List Addon :=
  addons.filter (fun addon =>
    existsSync fs (dir ++ ["mods", addon.installedFile.fileName]))

/-- Embeds `createRelease(release, dir)` (web.ts): check the manifest file,
parse it, filter the addons by file presence, build the payload literal
with the stripped release fields spread after `installedAddons`, and issue
one PUT.  Returns the issued request trace and the outcome (the payload on
success).  `strip` and the JSON parser are opaque collaborators. -/
def createRelease (strip : RawRelease → List (String × JVal))
    (parseInstance : String → MinecraftInstance)
    (fs : FS) (release : RawRelease) (dir : FilePath) :
    List Request × Except WebError (List (String × JVal)) :=
  let tag := release.tag_name
  let cfFile := dir ++ ["minecraftinstance.json"]
  if !existsSync fs cfFile then
    ([], .error (.appError "minecraftinstance.json file missing"))
  else
    let cfData := parseInstance (readFileD fs cfFile)
    let installedAddons := filterAddons fs dir cfData.installedAddons
    let payload :=
      objSpread [("installedAddons", JVal.arr (installedAddons.map addonToJVal))]
        (strip release)
    ([{ method := "PUT", path := "/pack/release/" ++ tag, body := .json (.obj payload) }],
     .ok payload)

/-- Embeds `updateData()` (web.ts): skip with a warning when web/pack.yml
is absent, otherwise PUT the YAML-parsed metadata to /pack.  Returns the
warnings emitted and the requests issued. -/
def updateData (yamlParse : String → JVal) (fs : FS) : List String × List Request :=
  let file := webDir ++ ["pack.yml"]
  if !existsSync fs file then (["Skip updating pack data"], [])
  else
    let packData := yamlParse (readFileD fs file)
    ([], [{ method := "PUT", path := "/pack", body := .json packData }])

/-- The extension dispatch of `updatePages` (web.ts switch): JSON parse for
".json", YAML parse for ".yml", the empty object otherwise. -/
def pageBody (jsonParse yamlParse : String → JVal) (content : String) (ext : String) : JVal :=
  match ext with
  | ".json" => jsonParse content
  | ".yml" => yamlParse content
  | _ => JVal.obj []

/-- Embeds `updatePages()` (web.ts): skip with a warning when web/pages is
absent, otherwise one PUT per file in the directory, parsed by extension. -/
def updatePages (jsonParse yamlParse : String → JVal) (fs : FS) :
    List String × List Request :=
  let pageDir := webDir ++ ["pages"]
  if !existsSync fs pageDir then (["No pages defined"], [])
  else
    let pages := (readdirSync fs pageDir).map (fun f => pageDir ++ [f])
    let parsed := pages.map (fun page =>
      pageBody jsonParse yamlParse (readFileD fs page) (extname (basename page)))
    ([], parsed.map (fun content =>
      { method := "PUT", path := "pack/page", body := .json content }))

/-- Embeds `updateAssets()` (web.ts): skip with a warning when web/assets
is absent, otherwise one PUT of a multipart form holding every file in the
directory, each part named by the file's base name. -/
def updateAssets (fs : FS) : List String × List Request :=
  let assetsDir := webDir ++ ["assets"]
  if !existsSync fs assetsDir then (["No assets defined"], [])
  else
    let assets := (readdirSync fs assetsDir).map (fun f => assetsDir ++ [f])
    let parts := assets.map (fun img => (basename img, img))
    ([], [{ method := "PUT", path := "/pack/assets", body := .multipart parts }])

/-- Embeds `updateWeb()` (web.ts): the three category branches of the
`Promise.all` fan-out, with request dispatch order following the source's
synchronous prefixes (page PUTs, then data, then assets). -/
def updateWeb (jsonParse yamlParse : String → JVal) (fs : FS) :
    List String × List Request :=
  let p := updatePages jsonParse yamlParse fs
  let d := updateData yamlParse fs
  let a := updateAssets fs
  (p.1 ++ d.1 ++ a.1, p.2 ++ d.2 ++ a.2)

/-- Embeds `web()` (index.ts): on a release event, await `createRelease`
first and run the `updateWeb` fan-out only after it succeeded. -/
def web (strip : RawRelease → List (String × JVal))
    (parseInstance : String → MinecraftInstance)
    (jsonParse yamlParse : String → JVal)
    (fs : FS) (eventIsRelease : Bool) (release : RawRelease) :
    List Request × Except WebError Unit :=
  if eventIsRelease then
    match createRelease strip parseInstance fs release [] with
    | (t, .error e) => (t, .error e)
    | (t, .ok _) => (t ++ (updateWeb jsonParse yamlParse fs).2, .ok ())
  else ((updateWeb jsonParse yamlParse fs).2, .ok ())

/-- What the top-level `run().catch` handler observably does for one
escaping error: console logs, an optional `core.setFailed` message, and
whether the error is rethrown out of the final catch. -/
structure HandlerOutcome where
  logs : List String
  setFailedMsg : Option String
  rethrown : Bool
deriving DecidableEq

/-- Embeds the `run().catch(e => ...)` handler of index.ts: axios errors
log the failing URL and the response body and are rethrown; every other
error is passed to `core.setFailed`. -/
def handleTopLevel (e : WebError) : HandlerOutcome :=
  match e with
  | .axiosError url respBody =>
      { logs := ["API Request failed: " ++ url, "   " ++ respBody],
        setFailedMsg := none, rethrown := true }
  | .appError msg =>
      { logs := [], setFailedMsg := some msg, rethrown := false }

/-- The pipeline run is marked failed: either `core.setFailed` was called
or the error escaped the final catch (a rethrow fails the process). -/
def pipelineFailed (o : HandlerOutcome) : Bool :=
  o.setFailedMsg.isSome || o.rethrown

/-- One branch of a `Promise.all` fan-out: the time at which it settles
and its failure, if any (`none` means it fulfilled). -/
structure AsyncBranch where
  settleTime : Nat
  failure : Option String
deriving DecidableEq

/-- The earliest-settling rejected branch, ties resolved in array order. -/
def earliestRejection : List AsyncBranch → Option AsyncBranch
  | [] => none
  | b :: bs =>
    match b.failure, earliestRejection bs with
    | none, r => r
    | some _, none => some b
    | some _, some c => if b.settleTime ≤ c.settleTime then some b else some c

/-- The semantics of `Promise.all` over settled branches: if every branch
fulfills it fulfills once the last branch has settled; otherwise it rejects
with the earliest rejection, at that rejection's settle time. -/
def promiseAll (bs : List AsyncBranch) : Nat × Option String :=
  match earliestRejection bs with
  | some b => (b.settleTime, b.failure)
  | none => ((bs.map AsyncBranch.settleTime).foldl max 0, none)

/-- Two successive `updateWeb()` invocations against the same filesystem,
returning the two request traces. -/
def updateWebTwice (jsonParse yamlParse : String → JVal) (fs : FS) :
    List Request × List Request :=
  ((updateWeb jsonParse yamlParse fs).2, (updateWeb jsonParse yamlParse fs).2)

/-- Recognizes the category-sync requests of `updateWeb()` by endpoint. -/
def isCategoryRequest (r : Request) : Bool :=
  r.path == "/pack" || r.path == "pack/page" || r.path == "/pack/assets"

/-- Recognizes the release-creation request for a given tag by endpoint. -/
def isReleaseRequestFor (tag : String) (r : Request) : Bool :=
  r.path == "/pack/release/" ++ tag

/-! Concrete fixtures used to exercise the definitions at explicit inputs. -/

/-- A concrete stand-in for the JSON text parser. -/
def jsonW : String → JVal := fun s => JVal.str s

/-- A concrete stand-in for the YAML text parser. -/
def yamlW : String → JVal := fun s => JVal.str s

/-- A concrete `strip` that keeps no descriptive fields. -/
def stripNone : RawRelease → List (String × JVal) := fun _ => []

/-- A concrete `strip` whose output collides with the installedAddons key. -/
def stripOverride : RawRelease → List (String × JVal) :=
  fun _ => [("installedAddons", JVal.str "override")]

/-- A concrete release event with tag v1.2.0 and no extra fields. -/
def relW : RawRelease := { tag_name := "v1.2.0", fields := [] }

/-- Addon whose file mod1.jar is present under mods/. -/
def addonA : Addon := { addonID := 1, installedFile := ⟨6, 11, "mod1.jar"⟩ }

/-- Addon whose file mod2.jar is absent from mods/. -/
def addonB : Addon := { addonID := 2, installedFile := ⟨6, 12, "mod2.jar"⟩ }

/-- A concrete installed-mod manifest listing `addonA` and `addonB`. -/
def miRel : MinecraftInstance :=
  { name := "pack",
    baseModLoader := ⟨"47.2.0", "forge", 1, "u", "forge.jar", 1, true, true, "1.20.1"⟩,
    installedAddons := [addonA, addonB] }

/-- A concrete stand-in for JSON-parsing the manifest file. -/
def parseRel : String → MinecraftInstance := fun _ => miRel

/-- A root directory holding the manifest file and only mod1.jar in mods/. -/
def fsRel : FS :=
  { files := [(["minecraftinstance.json"], "manifest"), (["mods", "mod1.jar"], "jar")] }

/-- The empty filesystem: no manifest, no web directory at all. -/
def fsEmpty : FS := { files := [] }

/-- A filesystem whose pages directory holds a .json, a .yml and a .txt file. -/
def fsPages : FS :=
  { files := [(["web", "pages", "page1.json"], "contentA"),
              (["web", "pages", "page2.yml"], "contentB"),
              (["web", "pages", "page3.txt"], "contentC")] }

/-- A filesystem whose assets directory holds two image files. -/
def fsAssets : FS :=
  { files := [(["web", "assets", "logo.png"], "img1"),
              (["web", "assets", "icon.png"], "img2")] }

/-- Branches of a fan-out where the failing branch settles first: one branch
fulfills at time 5, the other rejects at time 1. -/
def branchesC3 : List AsyncBranch :=
  [{ settleTime := 5, failure := none },
   { settleTime := 1, failure := some "network failure" }]

/-! Lemmas about object-literal construction and field lookup. -/

theorem lookupJ_map_set (o : List (String × JVal)) (k q : String) (v : JVal)
    (hne : k ≠ q) :
    lookupJ (o.map (fun kv => if kv.1 = k then (k, v) else kv)) q = lookupJ o q := by
  induction o with
  | nil => rfl
  | cons kv rest ih =>
    by_cases hk : kv.1 = k
    · have hq : kv.1 ≠ q := fun he => hne (hk ▸ he)
      rw [List.map_cons, if_pos hk]
      show (if k = q then some v else _) = _
      rw [if_neg hne]
      show _ = (if kv.1 = q then some kv.2 else lookupJ rest q)
      rw [if_neg hq]
      exact ih
    · rw [List.map_cons, if_neg hk]
      show (if kv.1 = q then some kv.2 else _) =
        (if kv.1 = q then some kv.2 else lookupJ rest q)
      by_cases hq : kv.1 = q
      · rw [if_pos hq, if_pos hq]
      · rw [if_neg hq, if_neg hq]
        exact ih

theorem lookupJ_append (o₁ o₂ : List (String × JVal)) (q : String) :
    lookupJ (o₁ ++ o₂) q =
      match lookupJ o₁ q with
      | some v => some v
      | none => lookupJ o₂ q := by
  induction o₁ with
  | nil => rfl
  | cons kv rest ih =>
    by_cases hq : kv.1 = q
    · simp [lookupJ, hq]
    · simp [lookupJ, hq, ih]

theorem lookupJ_eq_none_of_not_any (o : List (String × JVal)) (q : String)
    (h : o.any (fun kv => kv.1 = q) = false) : lookupJ o q = none := by
  induction o with
  | nil => rfl
  | cons kv rest ih =>
    simp only [List.any_cons, Bool.or_eq_false_iff] at h
    have hq : kv.1 ≠ q := by simpa using h.1
    simp [lookupJ, hq, ih h.2]

theorem lookupJ_map_set_mem (o : List (String × JVal)) (k : String) (v : JVal)
    (h : o.any (fun kv => kv.1 = k) = true) :
    lookupJ (o.map (fun kv => if kv.1 = k then (k, v) else kv)) k = some v := by
  induction o with
  | nil => simp at h
  | cons kv rest ih =>
    by_cases hk : kv.1 = k
    · rw [List.map_cons, if_pos hk]
      show (if k = k then some v else _) = some v
      rw [if_pos rfl]
    · rw [List.map_cons, if_neg hk]
      show (if kv.1 = k then some kv.2 else _) = some v
      rw [if_neg hk]
      simp only [List.any_cons, Bool.or_eq_true] at h
      have h2 : rest.any (fun kv => kv.1 = k) = true := by
        rcases h with h | h
        · exact absurd (by simpa using h) hk
        · exact h
      exact ih h2

theorem lookupJ_objSet_self (o : List (String × JVal)) (k : String) (v : JVal) :
    lookupJ (objSet o k v) k = some v := by
  unfold objSet
  split
  · rename_i h
    exact lookupJ_map_set_mem o k v h
  · rename_i h
    have h2 : o.any (fun kv => kv.1 = k) = false := by
      rw [Bool.not_eq_true] at h
      exact h
    rw [lookupJ_append]
    rw [lookupJ_eq_none_of_not_any o k h2]
    simp [lookupJ]

theorem lookupJ_objSet_ne (o : List (String × JVal)) (k q : String) (v : JVal)
    (hne : k ≠ q) : lookupJ (objSet o k v) q = lookupJ o q := by
  unfold objSet
  split
  · exact lookupJ_map_set o k q v hne
  · rw [lookupJ_append]
    match hm : lookupJ o q with
    | some w => rfl
    | none => simp [lookupJ, hne]

theorem lookupJ_objSpread_notin (base extra : List (String × JVal)) (q : String)
    (h : ∀ kv ∈ extra, kv.1 ≠ q) :
    lookupJ (objSpread base extra) q = lookupJ base q := by
  induction extra generalizing base with
  | nil => rfl
  | cons kv rest ih =>
    have h1 : kv.1 ≠ q := h kv (List.mem_cons_self kv rest)
    have h2 : ∀ kv2 ∈ rest, kv2.1 ≠ q := fun kv2 hm => h kv2 (List.mem_cons_of_mem _ hm)
    show lookupJ (objSpread (objSet base kv.1 kv.2) rest) q = lookupJ base q
    rw [ih _ h2, lookupJ_objSet_ne _ _ _ _ h1]

theorem lookupJ_objSpread_mem (base extra : List (String × JVal)) (q : String)
    (v : JVal) (hnd : (extra.map Prod.fst).Nodup) (h : lookupJ extra q = some v) :
    lookupJ (objSpread base extra) q = some v := by
  induction extra generalizing base with
  | nil => simp [lookupJ] at h
  | cons kv rest ih =>
    have hnd2 : (kv.1 :: rest.map Prod.fst).Nodup := by simpa using hnd
    by_cases hk : kv.1 = q
    · have hv : v = kv.2 := by
        simp only [lookupJ, if_pos hk] at h
        exact (Option.some.injEq _ _ ▸ h).symm
      have hq_not : ∀ kv2 ∈ rest, kv2.1 ≠ q := by
        intro kv2 hm heq
        have hmem : q ∈ rest.map Prod.fst := heq ▸ List.mem_map_of_mem _ hm
        exact (List.nodup_cons.mp hnd2).1 (hk ▸ hmem)
      show lookupJ (objSpread (objSet base kv.1 kv.2) rest) q = some v
      rw [lookupJ_objSpread_notin _ _ _ hq_not, hk, lookupJ_objSet_self, hv]
    · have h2 : lookupJ rest q = some v := by
        simpa [lookupJ, hk] using h
      have hnd3 : (rest.map Prod.fst).Nodup := (List.nodup_cons.mp hnd2).2
      show lookupJ (objSpread (objSet base kv.1 kv.2) rest) q = some v
      exact ih (objSet base kv.1 kv.2) hnd3 h2

/-! Structural lemmas about the embedded operations. -/

theorem createRelease_of_missing (strip : RawRelease → List (String × JVal))
    (parseInstance : String → MinecraftInstance) (fs : FS) (release : RawRelease)
    (dir : FilePath) (h : existsSync fs (dir ++ ["minecraftinstance.json"]) = false) :
    createRelease strip parseInstance fs release dir =
      ([], .error (.appError "minecraftinstance.json file missing")) := by
  unfold createRelease
  simp [h]

theorem createRelease_of_present (strip : RawRelease → List (String × JVal))
    (parseInstance : String → MinecraftInstance) (fs : FS) (release : RawRelease)
    (dir : FilePath) (h : existsSync fs (dir ++ ["minecraftinstance.json"]) = true) :
    createRelease strip parseInstance fs release dir =
      ([{ method := "PUT", path := "/pack/release/" ++ release.tag_name,
          body := .json (.obj (objSpread
            [("installedAddons", JVal.arr ((filterAddons fs dir
              (parseInstance (readFileD fs
                (dir ++ ["minecraftinstance.json"]))).installedAddons).map addonToJVal))]
            (strip release))) }],
       .ok (objSpread
          [("installedAddons", JVal.arr ((filterAddons fs dir
            (parseInstance (readFileD fs
              (dir ++ ["minecraftinstance.json"]))).installedAddons).map addonToJVal))]
          (strip release))) := by
  unfold createRelease
  simp [h]

theorem createRelease_error_trace (strip : RawRelease → List (String × JVal))
    (parseInstance : String → MinecraftInstance) (fs : FS) (release : RawRelease)
    (dir : FilePath) (e : WebError)
    (h : (createRelease strip parseInstance fs release dir).2 = .error e) :
    (createRelease strip parseInstance fs release dir).1 = [] := by
  by_cases hex : existsSync fs (dir ++ ["minecraftinstance.json"]) = true
  · rw [createRelease_of_present strip parseInstance fs release dir hex] at h
    exact absurd h (by simp)
  · rw [Bool.not_eq_true] at hex
    rw [createRelease_of_missing strip parseInstance fs release dir hex]

theorem createRelease_ok_trace (strip : RawRelease → List (String × JVal))
    (parseInstance : String → MinecraftInstance) (fs : FS) (release : RawRelease)
    (dir : FilePath) (pl : List (String × JVal))
    (h : (createRelease strip parseInstance fs release dir).2 = .ok pl) :
    (createRelease strip parseInstance fs release dir).1 =
      [{ method := "PUT", path := "/pack/release/" ++ release.tag_name,
         body := .json (.obj pl) }] := by
  by_cases hex : existsSync fs (dir ++ ["minecraftinstance.json"]) = true
  · rw [createRelease_of_present strip parseInstance fs release dir hex] at h ⊢
    simp only [Except.ok.injEq] at h
    rw [h]
  · rw [Bool.not_eq_true] at hex
    rw [createRelease_of_missing strip parseInstance fs release dir hex] at h
    exact absurd h (by simp)

theorem basename_concat (p : FilePath) (f : String) : basename (p ++ [f]) = f := by
  simp [basename]

theorem updatePages_of_absent (jsonParse yamlParse : String → JVal) (fs : FS)
    (hex : existsSync fs (webDir ++ ["pages"]) = false) :
    updatePages jsonParse yamlParse fs = (["No pages defined"], []) := by
  unfold updatePages
  simp [hex]

theorem updatePages_of_present (jsonParse yamlParse : String → JVal) (fs : FS)
    (hex : existsSync fs (webDir ++ ["pages"]) = true) :
    updatePages jsonParse yamlParse fs =
      ([], (readdirSync fs (webDir ++ ["pages"])).map (fun f =>
        { method := "PUT", path := "pack/page",
          body := ReqBody.json (pageBody jsonParse yamlParse
            (readFileD fs (webDir ++ ["pages", f])) (extname f)) })) := by
  unfold updatePages
  simp only [hex, Bool.not_true, Bool.false_eq_true, if_false, List.map_map]
  refine Prod.ext rfl ?_
  apply List.map_congr_left
  intro f _
  rfl

theorem updateData_of_absent (yamlParse : String → JVal) (fs : FS)
    (hex : existsSync fs (webDir ++ ["pack.yml"]) = false) :
    updateData yamlParse fs = (["Skip updating pack data"], []) := by
  unfold updateData
  simp [hex]

theorem updateData_of_present (yamlParse : String → JVal) (fs : FS)
    (hex : existsSync fs (webDir ++ ["pack.yml"]) = true) :
    updateData yamlParse fs =
      ([], [{ method := "PUT", path := "/pack",
              body := ReqBody.json (yamlParse (readFileD fs (webDir ++ ["pack.yml"]))) }]) := by
  unfold updateData
  simp [hex]

theorem updateAssets_of_absent (fs : FS)
    (hex : existsSync fs (webDir ++ ["assets"]) = false) :
    updateAssets fs = (["No assets defined"], []) := by
  unfold updateAssets
  simp [hex]

theorem updateAssets_of_present (fs : FS)
    (hex : existsSync fs (webDir ++ ["assets"]) = true) :
    updateAssets fs =
      ([], [{ method := "PUT", path := "/pack/assets",
              body := ReqBody.multipart ((readdirSync fs (webDir ++ ["assets"])).map
                (fun f => (f, webDir ++ ["assets", f]))) }]) := by
  unfold updateAssets
  simp only [hex, Bool.not_true, Bool.false_eq_true, if_false, List.map_map]
  refine Prod.ext rfl ?_
  have hmap : (readdirSync fs (webDir ++ ["assets"])).map
      ((fun img => (basename img, img)) ∘ (fun f => webDir ++ ["assets"] ++ [f])) =
      (readdirSync fs (webDir ++ ["assets"])).map (fun f => (f, webDir ++ ["assets", f])) := by
    apply List.map_congr_left
    intro f _
    rfl
  rw [hmap]

theorem path_of_mem_updatePages (jsonParse yamlParse : String → JVal) (fs : FS)
    (r : Request) (h : r ∈ (updatePages jsonParse yamlParse fs).2) :
    r.path = "pack/page" := by
  by_cases hex : existsSync fs (webDir ++ ["pages"]) = true
  · rw [updatePages_of_present jsonParse yamlParse fs hex] at h
    obtain ⟨c, -, hc⟩ := List.mem_map.mp h
    rw [← hc]
  · rw [Bool.not_eq_true] at hex
    rw [updatePages_of_absent jsonParse yamlParse fs hex] at h
    exact absurd h (by simp)

theorem path_of_mem_updateData (yamlParse : String → JVal) (fs : FS)
    (r : Request) (h : r ∈ (updateData yamlParse fs).2) : r.path = "/pack" := by
  by_cases hex : existsSync fs (webDir ++ ["pack.yml"]) = true
  · rw [updateData_of_present yamlParse fs hex] at h
    rw [List.mem_singleton.mp h]
  · rw [Bool.not_eq_true] at hex
    rw [updateData_of_absent yamlParse fs hex] at h
    exact absurd h (by simp)

theorem path_of_mem_updateAssets (fs : FS) (r : Request)
    (h : r ∈ (updateAssets fs).2) : r.path = "/pack/assets" := by
  by_cases hex : existsSync fs (webDir ++ ["assets"]) = true
  · rw [updateAssets_of_present fs hex] at h
    rw [List.mem_singleton.mp h]
  · rw [Bool.not_eq_true] at hex
    rw [updateAssets_of_absent fs hex] at h
    exact absurd h (by simp)

theorem path_of_mem_updateWeb (jsonParse yamlParse : String → JVal) (fs : FS)
    (r : Request) (h : r ∈ (updateWeb jsonParse yamlParse fs).2) :
    r.path = "pack/page" ∨ r.path = "/pack" ∨ r.path = "/pack/assets" := by
  unfold updateWeb at h
  simp only [List.mem_append] at h
  rcases h with (h | h) | h
  · exact Or.inl (path_of_mem_updatePages jsonParse yamlParse fs r h)
  · exact Or.inr (Or.inl (path_of_mem_updateData yamlParse fs r h))
  · exact Or.inr (Or.inr (path_of_mem_updateAssets fs r h))

theorem append_length_ne (s t u : String) (h : u.length < s.length) :
    ¬ (s ++ t = u) := by
  intro he
  have hl : (s ++ t).length = u.length := congrArg String.length he
  rw [String.length_append] at hl
  omega

theorem isCategoryRequest_of_release_path (tag m : String) (b : ReqBody) :
    isCategoryRequest { method := m, path := "/pack/release/" ++ tag, body := b } = false := by
  have h14 : ("/pack/release/" : String).length = 14 := rfl
  have h1 : ¬ (("/pack/release/" : String) ++ tag = "/pack") :=
    append_length_ne _ _ _ (by rw [h14]; exact by decide)
  have h2 : ¬ (("/pack/release/" : String) ++ tag = "pack/page") :=
    append_length_ne _ _ _ (by rw [h14]; exact by decide)
  have h3 : ¬ (("/pack/release/" : String) ++ tag = "/pack/assets") :=
    append_length_ne _ _ _ (by rw [h14]; exact by decide)
  simp [isCategoryRequest, h1, h2, h3]

theorem isReleaseRequestFor_of_category_path (tag : String) (r : Request)
    (h : r.path = "pack/page" ∨ r.path = "/pack" ∨ r.path = "/pack/assets") :
    isReleaseRequestFor tag r = false := by
  have h14 : ("/pack/release/" : String).length = 14 := rfl
  rcases h with h | h | h <;>
    · simp only [isReleaseRequestFor, h, beq_eq_false_iff_ne, ne_eq]
      intro he
      exact append_length_ne "/pack/release/" tag _ (by rw [h14]; exact by decide) he.symm

/-! Claim theorems. -/

/-- C1: the addon list sent by createRelease contains exactly the manifest
entries whose installedFile.fileName exists under dir/mods/ at filter time;
it is a subset of the manifest, membership is invariant under reordering of
the manifest, and (absent a key collision in the stripped fields) it is the
installedAddons field of the release payload. -/
theorem c1_release_addon_list (fs : FS) (dir : FilePath) (mi : MinecraftInstance) :
    (∀ a, a ∈ filterAddons fs dir mi.installedAddons ↔
        a ∈ mi.installedAddons ∧
          existsSync fs (dir ++ ["mods", a.installedFile.fileName]) = true) ∧
    (∀ a, a ∈ filterAddons fs dir mi.installedAddons → a ∈ mi.installedAddons) ∧
    (∀ l₂, mi.installedAddons.Perm l₂ → ∀ a,
        (a ∈ filterAddons fs dir mi.installedAddons ↔ a ∈ filterAddons fs dir l₂)) ∧
    (∀ (strip : RawRelease → List (String × JVal))
        (parseInstance : String → MinecraftInstance)
        (release : RawRelease) (reqs : List Request) (payload : List (String × JVal)),
        (∀ kv ∈ strip release, kv.1 ≠ "installedAddons") →
        createRelease strip parseInstance fs release dir = (reqs, .ok payload) →
        parseInstance (readFileD fs (dir ++ ["minecraftinstance.json"])) = mi →
        lookupJ payload "installedAddons" =
          some (JVal.arr ((filterAddons fs dir mi.installedAddons).map addonToJVal))) := by
  have hmem : ∀ a, a ∈ filterAddons fs dir mi.installedAddons ↔
      a ∈ mi.installedAddons ∧
        existsSync fs (dir ++ ["mods", a.installedFile.fileName]) = true := by
    intro a
    simp [filterAddons, List.mem_filter]
  refine ⟨hmem, fun a h => ((hmem a).mp h).1, ?_, ?_⟩
  · intro l₂ hperm a
    constructor
    · intro h
      rcases (hmem a).mp h with ⟨hin, hfile⟩
      exact List.mem_filter.mpr ⟨hperm.mem_iff.mp hin, hfile⟩
    · intro h
      have h2 := List.mem_filter.mp h
      exact (hmem a).mpr ⟨hperm.mem_iff.mpr h2.1, h2.2⟩
  · intro strip parseInstance release reqs payload hno hok hmi
    by_cases hex : existsSync fs (dir ++ ["minecraftinstance.json"]) = true
    · rw [createRelease_of_present strip parseInstance fs release dir hex] at hok
      simp only [Prod.mk.injEq, Except.ok.injEq] at hok
      rw [← hok.2, hmi, lookupJ_objSpread_notin _ _ _ hno]
      simp [lookupJ]
    · rw [Bool.not_eq_true] at hex
      rw [createRelease_of_missing strip parseInstance fs release dir hex] at hok
      simp at hok

/-- Witness for C1: with mod1.jar present and mod2.jar absent under mods/,
the filtered list keeps addonA and drops addonB. -/
theorem c1_release_addon_list_witness :
    addonA ∈ filterAddons fsRel [] miRel.installedAddons ∧
    addonB ∉ filterAddons fsRel [] miRel.installedAddons :=
  ⟨((c1_release_addon_list fsRel [] miRel).1 addonA).mpr (by decide),
   fun hmem => absurd (((c1_release_addon_list fsRel [] miRel).1 addonB).mp hmem).2
     (by decide)⟩

/-- C2: when the installed-manifest file is absent, createRelease raises the
dedicated application error, issues zero requests, and that error differs
from every transport error. -/
theorem c2_missing_manifest (strip : RawRelease → List (String × JVal))
    (parseInstance : String → MinecraftInstance) (fs : FS) (release : RawRelease)
    (dir : FilePath)
    (h : existsSync fs (dir ++ ["minecraftinstance.json"]) = false) :
    createRelease strip parseInstance fs release dir =
      ([], .error (.appError "minecraftinstance.json file missing")) ∧
    (∀ url respBody, WebError.appError "minecraftinstance.json file missing" ≠
        WebError.axiosError url respBody) := by
  refine ⟨createRelease_of_missing strip parseInstance fs release dir h, ?_⟩
  intro url respBody hcontra
  exact WebError.noConfusion hcontra

/-- Witness for C2: on the empty filesystem, createRelease yields the
application error and an empty request trace. -/
theorem c2_missing_manifest_witness :
    createRelease stripNone parseRel fsEmpty relW [] =
      ([], .error (.appError "minecraftinstance.json file missing")) :=
  (c2_missing_manifest stripNone parseRel fsEmpty relW [] (by decide)).1

/-- C10: the stripped release fields are spread after the installedAddons
key, so a stripped field named installedAddons replaces the filtered list in
the sent payload, and the payload's installedAddons equals the filtered list
exactly when no such collision occurs. -/
theorem c10_spread_override (strip : RawRelease → List (String × JVal))
    (parseInstance : String → MinecraftInstance) (fs : FS) (release : RawRelease)
    (dir : FilePath) (reqs : List Request) (payload : List (String × JVal))
    (hok : createRelease strip parseInstance fs release dir = (reqs, .ok payload)) :
    (∀ v, lookupJ (strip release) "installedAddons" = some v →
        ((strip release).map Prod.fst).Nodup →
        lookupJ payload "installedAddons" = some v) ∧
    ((∀ kv ∈ strip release, kv.1 ≠ "installedAddons") →
        lookupJ payload "installedAddons" =
          some (JVal.arr ((filterAddons fs dir
            (parseInstance (readFileD fs
              (dir ++ ["minecraftinstance.json"]))).installedAddons).map addonToJVal))) := by
  by_cases hex : existsSync fs (dir ++ ["minecraftinstance.json"]) = true
  · rw [createRelease_of_present strip parseInstance fs release dir hex] at hok
    simp only [Prod.mk.injEq, Except.ok.injEq] at hok
    constructor
    · intro v hv hnd
      rw [← hok.2]
      exact lookupJ_objSpread_mem _ _ _ _ hnd hv
    · intro hno
      rw [← hok.2, lookupJ_objSpread_notin _ _ _ hno]
      simp [lookupJ]
  · rw [Bool.not_eq_true] at hex
    rw [createRelease_of_missing strip parseInstance fs release dir hex] at hok
    simp at hok

/-- Witness for C10: a stripped field named installedAddons overrides the
filtered list in the payload sent by createRelease. -/
theorem c10_spread_override_witness :
    lookupJ (objSpread
      [("installedAddons", JVal.arr ((filterAddons fsRel []
        (parseRel (readFileD fsRel ([] ++ ["minecraftinstance.json"]))).installedAddons).map
          addonToJVal))]
      (stripOverride relW)) "installedAddons" = some (JVal.str "override") :=
  (c10_spread_override stripOverride parseRel fsRel relW [] _ _ rfl).1
    (JVal.str "override") rfl (by decide)

/-- C4: for each skippable category (metadata file, pages directory, assets
directory), absence of the local path yields exactly one warning, zero
requests from that category, and no request to that category's endpoint in
the whole updateWeb trace. -/
theorem c4_skip_conditions (jsonParse yamlParse : String → JVal) (fs : FS) :
    (existsSync fs (webDir ++ ["pack.yml"]) = false →
        updateData yamlParse fs = (["Skip updating pack data"], []) ∧
        (updateWeb jsonParse yamlParse fs).2.filter (fun r => r.path == "/pack") = []) ∧
    (existsSync fs (webDir ++ ["pages"]) = false →
        updatePages jsonParse yamlParse fs = (["No pages defined"], []) ∧
        (updateWeb jsonParse yamlParse fs).2.filter (fun r => r.path == "pack/page") = []) ∧
    (existsSync fs (webDir ++ ["assets"]) = false →
        updateAssets fs = (["No assets defined"], []) ∧
        (updateWeb jsonParse yamlParse fs).2.filter (fun r => r.path == "/pack/assets") = []) := by
  have hfilter : ∀ (s : String) (l : List Request), (∀ r ∈ l, r.path ≠ s) →
      l.filter (fun r => r.path == s) = [] := by
    intro s l h
    induction l with
    | nil => rfl
    | cons r rest ih =>
      have hr : (r.path == s) = false := beq_eq_false_iff_ne.mpr (h r (List.mem_cons_self r rest))
      rw [List.filter_cons, hr]
      simp only [Bool.false_eq_true, if_false]
      exact ih (fun x hx => h x (List.mem_cons_of_mem r hx))
  refine ⟨?_, ?_, ?_⟩
  · intro habs
    refine ⟨updateData_of_absent yamlParse fs habs, hfilter _ _ ?_⟩
    intro r hr
    unfold updateWeb at hr
    simp only [List.mem_append] at hr
    rcases hr with (hp | hd) | ha
    · rw [path_of_mem_updatePages jsonParse yamlParse fs r hp]
      decide
    · rw [updateData_of_absent yamlParse fs habs] at hd
      simp at hd
    · rw [path_of_mem_updateAssets fs r ha]
      decide
  · intro habs
    refine ⟨updatePages_of_absent jsonParse yamlParse fs habs, hfilter _ _ ?_⟩
    intro r hr
    unfold updateWeb at hr
    simp only [List.mem_append] at hr
    rcases hr with (hp | hd) | ha
    · rw [updatePages_of_absent jsonParse yamlParse fs habs] at hp
      simp at hp
    · rw [path_of_mem_updateData yamlParse fs r hd]
      decide
    · rw [path_of_mem_updateAssets fs r ha]
      decide
  · intro habs
    refine ⟨updateAssets_of_absent fs habs, hfilter _ _ ?_⟩
    intro r hr
    unfold updateWeb at hr
    simp only [List.mem_append] at hr
    rcases hr with (hp | hd) | ha
    · rw [path_of_mem_updatePages jsonParse yamlParse fs r hp]
      decide
    · rw [path_of_mem_updateData yamlParse fs r hd]
      decide
    · rw [updateAssets_of_absent fs habs] at ha
      simp at ha

/-- Witness for C4: on the empty filesystem each of the three categories
skips with its warning and issues no request. -/
theorem c4_skip_conditions_witness :
    updateData yamlW fsEmpty = (["Skip updating pack data"], []) ∧
    updatePages jsonW yamlW fsEmpty = (["No pages defined"], []) ∧
    updateAssets fsEmpty = (["No assets defined"], []) :=
  ⟨((c4_skip_conditions jsonW yamlW fsEmpty).1 (by decide)).1,
   ((c4_skip_conditions jsonW yamlW fsEmpty).2.1 (by decide)).1,
   ((c4_skip_conditions jsonW yamlW fsEmpty).2.2 (by decide)).1⟩

/-- C5: each file of the pages directory yields exactly one page PUT whose
body is the JSON parse for .json, the YAML parse for .yml, and the empty
object for any other extension; no file is skipped. -/
theorem c5_pages_dispatch (jsonParse yamlParse : String → JVal) (fs : FS)
    (names : List String)
    (hex : existsSync fs (webDir ++ ["pages"]) = true)
    (hnames : readdirSync fs (webDir ++ ["pages"]) = names) :
    (updatePages jsonParse yamlParse fs).2 =
      names.map (fun f =>
        { method := "PUT", path := "pack/page",
          body := ReqBody.json (pageBody jsonParse yamlParse
            (readFileD fs (webDir ++ ["pages", f])) (extname f)) }) ∧
    (updatePages jsonParse yamlParse fs).2.length = names.length ∧
    (∀ c, pageBody jsonParse yamlParse c ".json" = jsonParse c) ∧
    (∀ c, pageBody jsonParse yamlParse c ".yml" = yamlParse c) ∧
    (∀ e c, e ≠ ".json" → e ≠ ".yml" →
        pageBody jsonParse yamlParse c e = JVal.obj []) := by
  have h1 : (updatePages jsonParse yamlParse fs).2 =
      names.map (fun f =>
        { method := "PUT", path := "pack/page",
          body := ReqBody.json (pageBody jsonParse yamlParse
            (readFileD fs (webDir ++ ["pages", f])) (extname f)) }) := by
    rw [updatePages_of_present jsonParse yamlParse fs hex, hnames]
  refine ⟨h1, by rw [h1, List.length_map], fun c => rfl, fun c => rfl, ?_⟩
  intro e c hj hy
  unfold pageBody
  split <;> simp_all

/-- Witness for C5: a pages directory with one .json, one .yml and one .txt
file yields exactly three page PUTs, the last carrying the empty object. -/
theorem c5_pages_dispatch_witness :
    (updatePages jsonW yamlW fsPages).2 =
      [{ method := "PUT", path := "pack/page", body := ReqBody.json (JVal.str "contentA") },
       { method := "PUT", path := "pack/page", body := ReqBody.json (JVal.str "contentB") },
       { method := "PUT", path := "pack/page", body := ReqBody.json (JVal.obj []) }] := by
  have h := (c5_pages_dispatch jsonW yamlW fsPages ["page1.json", "page2.yml", "page3.txt"]
    (by decide) (by decide)).1
  rw [h]
  rfl

/-- C6: with the assets directory present and holding the listed files,
updateAssets issues exactly one PUT whose multipart body carries one part
per file, named by the file's base name. -/
theorem c6_assets_single_put (fs : FS) (names : List String)
    (hex : existsSync fs (webDir ++ ["assets"]) = true)
    (hnames : readdirSync fs (webDir ++ ["assets"]) = names) :
    (updateAssets fs).2 =
      [{ method := "PUT", path := "/pack/assets",
         body := ReqBody.multipart (names.map (fun f => (f, webDir ++ ["assets", f]))) }] ∧
    (updateAssets fs).2.length = 1 ∧
    (names.map (fun f => (f, webDir ++ ["assets", f]))).map Prod.fst = names ∧
    (names.map (fun f => (f, webDir ++ ["assets", f]))).length = names.length := by
  have h1 : (updateAssets fs).2 =
      [{ method := "PUT", path := "/pack/assets",
         body := ReqBody.multipart (names.map (fun f => (f, webDir ++ ["assets", f]))) }] := by
    rw [updateAssets_of_present fs hex, hnames]
  refine ⟨h1, by rw [h1]; rfl, ?_, by rw [List.length_map]⟩
  rw [List.map_map]
  exact List.map_id names

/-- Witness for C6: two asset files yield one multipart PUT with two parts
named by the files' base names. -/
theorem c6_assets_single_put_witness :
    (updateAssets fsAssets).2 =
      [{ method := "PUT", path := "/pack/assets",
         body := ReqBody.multipart
           [("logo.png", ["web", "assets", "logo.png"]),
            ("icon.png", ["web", "assets", "icon.png"])] }] := by
  have h := (c6_assets_single_put fsAssets ["logo.png", "icon.png"]
    (by decide) (by decide)).1
  rw [h]
  rfl

theorem web_trace_error (strip : RawRelease → List (String × JVal))
    (parseInstance : String → MinecraftInstance)
    (jsonParse yamlParse : String → JVal) (fs : FS) (release : RawRelease)
    (e : WebError) (he : (createRelease strip parseInstance fs release []).2 = .error e) :
    (web strip parseInstance jsonParse yamlParse fs true release).1 =
      (createRelease strip parseInstance fs release []).1 := by
  unfold web
  rcases hcr : createRelease strip parseInstance fs release [] with ⟨t, r⟩
  rw [hcr] at he
  have he2 : r = .error e := he
  subst he2
  rfl

theorem web_trace_ok (strip : RawRelease → List (String × JVal))
    (parseInstance : String → MinecraftInstance)
    (jsonParse yamlParse : String → JVal) (fs : FS) (release : RawRelease)
    (pl : List (String × JVal))
    (hok : (createRelease strip parseInstance fs release []).2 = .ok pl) :
    (web strip parseInstance jsonParse yamlParse fs true release).1 =
      (createRelease strip parseInstance fs release []).1 ++
        (updateWeb jsonParse yamlParse fs).2 := by
  unfold web
  rcases hcr : createRelease strip parseInstance fs release [] with ⟨t, r⟩
  rw [hcr] at hok
  have hok2 : r = .ok pl := hok
  subst hok2
  rfl

theorem index_lt_of_partition (t u : List Request) (p q : Request → Bool)
    (hpu : ∀ r ∈ u, p r = false) (hqt : ∀ r ∈ t, q r = false)
    (i j : Nat) (hi : i < (t ++ u).length) (hj : j < (t ++ u).length)
    (hp : p ((t ++ u).get ⟨i, hi⟩) = true) (hq : q ((t ++ u).get ⟨j, hj⟩) = true) :
    i < j := by
  have hit : i < t.length := by
    by_contra hc
    push_neg at hc
    have hmem : (t ++ u).get ⟨i, hi⟩ ∈ u := by
      rw [List.get_eq_getElem, List.getElem_append_right hc]
      exact List.getElem_mem _
    rw [hpu _ hmem] at hp
    exact Bool.false_ne_true hp
  have hjt : t.length ≤ j := by
    by_contra hc
    push_neg at hc
    have hmem : (t ++ u).get ⟨j, hj⟩ ∈ t := by
      rw [List.get_eq_getElem, List.getElem_append_left hc]
      exact List.getElem_mem _
    rw [hqt _ hmem] at hq
    exact Bool.false_ne_true hq
  omega

/-- C7: on a release event the top-level web flow awaits createRelease to
completion first: if it fails nothing else is dispatched, and in every trace
each release-creation request precedes every category-sync request. -/
theorem c7_release_before_fanout (strip : RawRelease → List (String × JVal))
    (parseInstance : String → MinecraftInstance)
    (jsonParse yamlParse : String → JVal) (fs : FS) (release : RawRelease) :
    (∀ e, (createRelease strip parseInstance fs release []).2 = .error e →
        (web strip parseInstance jsonParse yamlParse fs true release).1 =
          (createRelease strip parseInstance fs release []).1) ∧
    (∀ i j
        (hi : i < (web strip parseInstance jsonParse yamlParse fs true release).1.length)
        (hj : j < (web strip parseInstance jsonParse yamlParse fs true release).1.length),
        isReleaseRequestFor release.tag_name
          ((web strip parseInstance jsonParse yamlParse fs true release).1.get ⟨i, hi⟩) = true →
        isCategoryRequest
          ((web strip parseInstance jsonParse yamlParse fs true release).1.get ⟨j, hj⟩) = true →
        i < j) := by
  constructor
  · intro e he
    exact web_trace_error strip parseInstance jsonParse yamlParse fs release e he
  · intro i j
    cases hsc : (createRelease strip parseInstance fs release []).2 with
    | error e =>
      have h0 := web_trace_error strip parseInstance jsonParse yamlParse fs release e hsc
      have h1 := createRelease_error_trace strip parseInstance fs release [] e hsc
      rw [h0, h1]
      intro hi
      exact absurd hi (by simp)
    | ok pl =>
      have h0 := web_trace_ok strip parseInstance jsonParse yamlParse fs release pl hsc
      have h1 := createRelease_ok_trace strip parseInstance fs release [] pl hsc
      rw [h0]
      intro hi hj hp hq
      refine index_lt_of_partition _ _ _ _ ?_ ?_ i j hi hj hp hq
      · intro r hr
        exact isReleaseRequestFor_of_category_path release.tag_name r
          (path_of_mem_updateWeb jsonParse yamlParse fs r hr)
      · intro r hr
        rw [h1] at hr
        rw [List.mem_singleton.mp hr]
        exact isCategoryRequest_of_release_path release.tag_name "PUT" _

/-- Witness for C7: with the manifest absent, createRelease fails and the
web flow dispatches no request at all. -/
theorem c7_release_before_fanout_witness :
    (web stripNone parseRel jsonW yamlW fsEmpty true relW).1 = [] :=
  ((c7_release_before_fanout stripNone parseRel jsonW yamlW fsEmpty relW).1
    (.appError "minecraftinstance.json file missing") rfl).trans
    (by rw [createRelease_of_missing stripNone parseRel fsEmpty relW [] (by decide)])

/-- C8: every escaping error is mapped to a pipeline-visible failure; a
transport error additionally logs the failing URL and the response body and
is rethrown rather than passed to setFailed, while every other error is
passed to setFailed; no error is dropped. -/
theorem c8_top_level_errors (e : WebError) :
    pipelineFailed (handleTopLevel e) = true ∧
    (∀ url respBody, e = .axiosError url respBody →
        (handleTopLevel e).logs = ["API Request failed: " ++ url, "   " ++ respBody] ∧
        (handleTopLevel e).rethrown = true ∧
        (handleTopLevel e).setFailedMsg = none) ∧
    (∀ msg, e = .appError msg →
        (handleTopLevel e).logs = [] ∧
        (handleTopLevel e).setFailedMsg = some msg) := by
  cases e <;> simp [handleTopLevel, pipelineFailed]

/-- Witness for C8: a concrete transport error fails the pipeline and logs
the endpoint and response body. -/
theorem c8_top_level_errors_witness :
    pipelineFailed (handleTopLevel (WebError.axiosError "/pack" "boom")) = true ∧
    (handleTopLevel (WebError.axiosError "/pack" "boom")).logs =
      ["API Request failed: /pack", "   boom"] := by
  refine ⟨(c8_top_level_errors (WebError.axiosError "/pack" "boom")).1, ?_⟩
  have h := ((c8_top_level_errors (WebError.axiosError "/pack" "boom")).2.1
    "/pack" "boom" rfl).1
  rw [h]
  rfl

/-- C9: updateWeb carries no hidden state between invocations: two
successive runs over the same filesystem and configuration produce
structurally identical request traces. -/
theorem c9_no_hidden_state (jsonParse yamlParse : String → JVal) (fs₁ fs₂ : FS)
    (h : fs₁ = fs₂) :
    (updateWebTwice jsonParse yamlParse fs₁).1 =
      (updateWebTwice jsonParse yamlParse fs₂).2 := by
  rw [h]
  rfl

/-- Witness for C9: two runs over the concrete pages filesystem coincide. -/
theorem c9_no_hidden_state_witness :
    (updateWebTwice jsonW yamlW fsPages).1 = (updateWebTwice jsonW yamlW fsPages).2 :=
  c9_no_hidden_state jsonW yamlW fsPages fsPages rfl

theorem earliestRejection_none (bs : List AsyncBranch) :
    earliestRejection bs = none ↔ (bs.any fun b => b.failure.isSome) = false := by
  induction bs with
  | nil => simp [earliestRejection]
  | cons hd rest ih =>
    cases hf : hd.failure with
    | none =>
      have hred : earliestRejection (hd :: rest) = earliestRejection rest := by
        simp only [earliestRejection]
        rw [hf]
      rw [hred, ih]
      simp [hf]
    | some msg =>
      cases her : earliestRejection rest with
      | none =>
        have hred : earliestRejection (hd :: rest) = some hd := by
          unfold earliestRejection
          rw [hf, her]
        rw [hred]
        simp [hf]
      | some c =>
        have hred : earliestRejection (hd :: rest) =
            (if hd.settleTime ≤ c.settleTime then some hd else some c) := by
          unfold earliestRejection
          rw [hf, her]
        rw [hred]
        constructor
        · intro hcontra
          by_cases hle : hd.settleTime ≤ c.settleTime <;> simp [hle] at hcontra
        · intro hcontra
          simp [hf] at hcontra


theorem earliestRejection_spec (bs : List AsyncBranch) (b : AsyncBranch)
    (h : earliestRejection bs = some b) :
    b ∈ bs ∧ b.failure.isSome = true ∧
      ∀ c ∈ bs, c.failure.isSome = true → b.settleTime ≤ c.settleTime := by
  induction bs generalizing b with
  | nil => simp [earliestRejection] at h
  | cons hd rest ih =>
    cases hf : hd.failure with
    | none =>
      have hred : earliestRejection (hd :: rest) = earliestRejection rest := by
        simp only [earliestRejection]
        rw [hf]
      rw [hred] at h
      obtain ⟨hmem, hsome, hmin⟩ := ih b h
      refine ⟨List.mem_cons_of_mem _ hmem, hsome, ?_⟩
      intro c hc hcs
      rcases List.mem_cons.mp hc with hrfl | hcr
      · rw [hrfl, hf] at hcs
        exact absurd hcs (by simp)
      · exact hmin c hcr hcs
    | some msg =>
      cases her : earliestRejection rest with
      | none =>
        have hred : earliestRejection (hd :: rest) = some hd := by
          unfold earliestRejection
          rw [hf, her]
        rw [hred] at h
        have hb : b = hd := (Option.some.injEq _ _ ▸ h).symm
        subst hb
        refine ⟨List.mem_cons_self _ _, by simp [hf], ?_⟩
        intro c hc hcs
        rcases List.mem_cons.mp hc with hrfl | hcr
        · rw [hrfl]
        · have hnone := (earliestRejection_none rest).mp her
          rw [List.any_eq_false] at hnone
          exact absurd hcs (by simp [hnone c hcr])
      | some c0 =>
        have hred : earliestRejection (hd :: rest) =
            (if hd.settleTime ≤ c0.settleTime then some hd else some c0) := by
          unfold earliestRejection
          rw [hf, her]
        rw [hred] at h
        obtain ⟨hc0mem, hc0some, hc0min⟩ := ih c0 her
        by_cases hle : hd.settleTime ≤ c0.settleTime
        · rw [if_pos hle] at h
          have hb : b = hd := (Option.some.injEq _ _ ▸ h).symm
          subst hb
          refine ⟨List.mem_cons_self _ _, by simp [hf], ?_⟩
          intro c hc hcs
          rcases List.mem_cons.mp hc with hrfl | hcr
          · rw [hrfl]
          · exact le_trans hle (hc0min c hcr hcs)
        · rw [if_neg hle] at h
          have hb : b = c0 := (Option.some.injEq _ _ ▸ h).symm
          subst hb
          refine ⟨List.mem_cons_of_mem _ hc0mem, hc0some, ?_⟩
          intro c hc hcs
          rcases List.mem_cons.mp hc with hrfl | hcr
          · rw [hrfl]
            omega
          · exact hc0min c hcr hcs

/-- C3 counterexample: with one branch fulfilling at time 5 and one branch
rejecting at time 1, the Promise.all join rejects while a sibling branch has
not yet settled, so the join does not raise only after every branch has
settled. -/
theorem c3_promise_all_counterexample :
    (promiseAll branchesC3).2.isSome = true ∧
    (branchesC3.all fun b => decide (b.settleTime ≤ (promiseAll branchesC3).1)) = false := by
  decide

/-- C3 (amended): the Promise.all join of updateWeb raises exactly when some
branch failed — a single failure fails the whole operation even when sibling
branches succeeded, and branch outcomes are not cancelled — but on failure it
settles at the earliest rejection's time, which can precede sibling settle
times; only when every branch fulfills does it settle after all of them. -/
theorem c3_promise_all_join (bs : List AsyncBranch) :
    ((promiseAll bs).2.isSome = true ↔ (bs.any fun b => b.failure.isSome) = true) ∧
    ((bs.any fun b => b.failure.isSome) = false →
        promiseAll bs = ((bs.map AsyncBranch.settleTime).foldl max 0, none)) ∧
    (∀ b, earliestRejection bs = some b →
        b ∈ bs ∧ b.failure.isSome = true ∧ promiseAll bs = (b.settleTime, b.failure) ∧
        ∀ c ∈ bs, c.failure.isSome = true → b.settleTime ≤ c.settleTime) := by
  refine ⟨?_, ?_, ?_⟩
  · cases her : earliestRejection bs with
    | none =>
      have hno := (earliestRejection_none bs).mp her
      simp [promiseAll, her, hno]
    | some b =>
      obtain ⟨hmem, hsome, -⟩ := earliestRejection_spec bs b her
      constructor
      · intro _
        exact List.any_eq_true.mpr ⟨b, hmem, by simp [hsome]⟩
      · intro _
        simp [promiseAll, her, hsome]
  · intro hnone
    have her : earliestRejection bs = none := (earliestRejection_none bs).mpr hnone
    simp [promiseAll, her]
  · intro b hb
    obtain ⟨hmem, hsome, hmin⟩ := earliestRejection_spec bs b hb
    exact ⟨hmem, hsome, by simp [promiseAll, hb], hmin⟩

/-- Witness for C3: on the concrete branches the join rejects because one
branch failed. -/
theorem c3_promise_all_join_witness :
    (promiseAll branchesC3).2.isSome = true :=
  (c3_promise_all_join branchesC3).1.mpr (by decide)

end ModpackUtils
